import Mathlib

/-!
Shallow embedding of `packages/seed/src/dialects/postgres/store.ts`
(the Store → Statement Synthesis Engine of the seed-data tool) and proofs
about the claims of its specification.

The embedding follows the code path that actually executes: `PgStore.toSQL`
returns `createStatements({dataModel, store})` on its first line
(store.ts:44-48), so everything after that `return` (store.ts:50-219) is
unreachable and is not part of the program's behaviour.

JavaScript values appearing in rows are modelled by `JsVal`; an absent
object key (JS `undefined`) is modelled by `Option.none`, and the SQL null
value by `JsVal.vNull`, so that `undefined` and `null` stay distinct, as
they are under JS strict equality.  The unbounded recursion of
`createStatement` (store.ts:357-361) is embedded with an explicit fuel
parameter; `SynthError.outOfFuel` marks exhaustion of the fuel, an artifact
of the embedding that no theorem below relies on.
-/

namespace Seed

/-- A JavaScript value that can occur in a row of the Row Store. -/
inductive JsVal where
  | vNull
  | vInt (n : Int)
  | vStr (s : String)
  | vBool (b : Bool)
deriving DecidableEq, Repr

/-- A row: a JS object, modelled as an association list from field name to
value.  A key absent from the list models JS `undefined`. -/
abbrev Row := List (String × JsVal)

/-- `row[k]` — JS property access; `none` models `undefined`. -/
def rowGet (r : Row) (k : String) : Option JsVal :=
  (r.find? (fun kv => kv.1 == k)).map (fun kv => kv.2)

/-- The `sequence` descriptor of a scalar field (`{identifier?: string}`). -/
structure SequenceInfo where
  identifier : Option String
deriving DecidableEq, Repr

/-- `DataModelScalarField` (core/dataModel/types.ts): a column-backed field. -/
structure ScalarField where
  name : String
  columnName : String
  type : String
  isId : Bool
  isGenerated : Bool
  hasDefaultValue : Bool
  sequence : Option SequenceInfo
deriving DecidableEq, Repr

/-- A relation ("parent") field: a foreign-key link from this model's
`relationFromFields` columns to `relationToFields` columns of model `type`.
`isNullable` records whether the from-columns may legally hold null; the
reachable synthesis path never reads it. -/
structure RelationField where
  name : String
  type : String
  relationFromFields : List String
  relationToFields : List String
  isNullable : Bool
deriving DecidableEq, Repr

/-- `DataModelField` — tagged union of scalar and relation fields. -/
inductive Field where
  | scalar (f : ScalarField)
  | relation (f : RelationField)
deriving DecidableEq, Repr

/-- A model (one database table) of the Schema Graph. -/
structure Model where
  modelName : String
  schemaName : String
  tableName : String
  fields : List Field
deriving DecidableEq, Repr

/-- The Schema Graph: models keyed by name, in declaration order. -/
structure DataModel where
  models : List Model
deriving DecidableEq, Repr

/-- `ctx.dataModel.models[name]` — model lookup by name. -/
def dmLookup (dm : DataModel) (name : String) : Model :=
  (dm.models.find? (fun m => m.modelName == name)).getD ⟨name, "", "", []⟩

/-- Modelled from the spec: `groupFields` (core/dataModel/utils.js, not under
src/) splits a model's field list into its scalar fields and its parent
relation fields (spec §4.2 step 3 and step 4), preserving order. -/
def groupFields (fs : List Field) : List ScalarField × List RelationField :=
  (fs.filterMap (fun f => match f with | .scalar s => some s | .relation _ => none),
   fs.filterMap (fun f => match f with | .scalar _ => none | .relation r => some r))

/-- Doubling of every occurrence of a quote character, the escaping scheme
shared by literal and identifier quoting (spec §4.4). -/
def doubleChar (c : Char) (s : String) : String :=
  String.mk (s.toList.foldr (fun ch acc => if ch == c then ch :: ch :: acc else ch :: acc) [])

/-- Modelled from the spec: the Value Codec `serializeToSQL`
(dialects/postgres/utils.js, not under src/).  Spec §4.4: null maps to the
SQL null literal, otherwise the value is rendered per its literal syntax
(text with quote-doubling); an absent value with no default is rendered as
the SQL null literal (§8, null passthrough). -/
def serializeToSQL (ty : String) (v : Option JsVal) : String :=
  match ty, v with
  | _, none => "NULL"
  | _, some .vNull => "NULL"
  | _, some (.vInt n) => toString n
  | _, some (.vBool b) => if b then "TRUE" else "FALSE"
  | _, some (.vStr s) => "\x27" ++ doubleChar ('\x27') s ++ "\x27"

/-- Modelled from the spec: identifier quoting (spec §4.4) — double-quoted
identifiers with quote-doubling, independent from literal quoting. -/
def escapeIdentifier (s : String) : String :=
  "\"" ++ doubleChar ('"') s ++ "\""

/-- Modelled from the spec: literal quoting (spec §4.4) — single-quoted
string literal with quote-doubling. -/
def escapeLiteral (s : String) : String :=
  "\x27" ++ doubleChar ('\x27') s ++ "\x27"

/-- Modelled from the spec: instantiation of the pg-format template
`INSERT INTO %I.%I (%I) [OVERRIDING SYSTEM VALUE] VALUES (%L)` built at
store.ts:368-374, with the values already rendered by the Value Codec. -/
def formatInsert (schemaName tableName : String) (cols : List String)
    (vals : List String) (overriding : Bool) : String :=
  "INSERT INTO " ++ escapeIdentifier schemaName ++ "." ++ escapeIdentifier tableName
    ++ " (" ++ String.intercalate (", ") (cols.map escapeIdentifier) ++ ")"
    ++ (if overriding then " OVERRIDING SYSTEM VALUE" else "")
    ++ " VALUES (" ++ String.intercalate (", ") vals ++ ")"

/-- Target model names of a model's relation fields (the model-level
dependency edges of spec §4.1). -/
def parentTypes (m : Model) : List String :=
  m.fields.filterMap (fun f => match f with | .scalar _ => none | .relation r => some r.type)

/-- A model is placeable when every model it references is itself or is no
longer among the remaining (unplaced) models. -/
def modelPlaceable (remaining : List Model) (m : Model) : Bool :=
  (parentTypes m).all (fun t => t == m.modelName || remaining.all (fun m2 => m2.modelName != t))

/-- Worker for `sortModels`; the `Nat` bounds the number of placements. -/
def sortModelsGo : Nat → List Model → List Model
  | 0, rem => rem
  | n + 1, rem =>
    match rem.find? (modelPlaceable rem) with
    | some m => m :: sortModelsGo n (rem.filter (fun m2 => m2.modelName != m.modelName))
    | none =>
      match rem with
      | [] => []
      | m :: rest => m :: sortModelsGo n rest

/-- Modelled from the spec: `sortModels` (core/store/topologicalSort.js, not
under src/).  Spec §4.1: a best-effort topological order placing referenced
models before referencing ones, ties broken by declaration order; when the
model graph is cyclic a deterministic order is still returned (first
declared model first). -/
def sortModels (dm : DataModel) : List Model :=
  sortModelsGo dm.models.length dm.models

/-- The per-run synthesis context built at store.ts:226-237: per model the
rows already `inserted` and the rows `pending` (mid-resolution), plus the
accumulated INSERT `statements`. -/
structure SynthCtx where
  inserted : String → List Row
  pending : String → List Row
  statements : List String

/-- The context `createStatements` constructs afresh on every call
(store.ts:227-237): every model starts with no inserted and no pending
rows, and no statements. -/
def freshSynthCtx : SynthCtx :=
  { inserted := fun _ => [], pending := fun _ => [], statements := [] }

/-- Errors of the synthesis run.  `circular` embeds the exception thrown at
store.ts:351-353, which carries the parent model's name and the offending
parent row.  `outOfFuel` is an artifact of the fueled embedding. -/
inductive SynthError where
  | circular (modelName : String) (row : Row)
  | outOfFuel
deriving DecidableEq, Repr

/-- Pointwise update of a per-model row table. -/
def setRows (f : String → List Row) (m : String) (rs : List Row) : String → List Row :=
  fun k => if k == m then rs else f k

/-- The row's id fields `(f.name, row[f.name])` for every `isId` field
(store.ts:305-307). -/
def rowIdFields (model : Model) (row : Row) : List (String × Option JsVal) :=
  model.fields.filterMap (fun f => match f with
    | .scalar s => if s.isId then some (s.name, rowGet row s.name) else none
    | .relation _ => none)

/-- `keyVals.every(([k, v]) => r[k] === v)` — the matching predicate used for
the inserted check (store.ts:310-312), the parent row lookup
(store.ts:336-338) and the pending check (store.ts:346-350). -/
def idMatches (keyVals : List (String × Option JsVal)) (r : Row) : Bool :=
  keyVals.all (fun kv => rowGet r kv.1 == kv.2)

/-- The `(relationToFields[i], row[relationFromFields[i]])` pairs of a parent
relation for a row (store.ts:323-329). -/
def parentIdFields (p : RelationField) (row : Row) : List (String × Option JsVal) :=
  (List.range p.relationFromFields.length).map (fun i =>
    (p.relationToFields.getD i "", rowGet row (p.relationFromFields.getD i "")))

/-- The INSERT statement emitted for one row (store.ts:364-382): all scalar
columns, values rendered by the Value Codec, with OVERRIDING SYSTEM VALUE
when the model has a generated id field. -/
def renderRow (dm : DataModel) (modelName : String) (row : Row) : String :=
  let model := dmLookup dm modelName
  let scalars := (groupFields model.fields).1
  let isGeneratedId := model.fields.any (fun f => match f with
    | .scalar s => s.isGenerated && s.isId
    | .relation _ => false)
  formatInsert model.schemaName model.tableName
    (scalars.map (fun f => f.columnName))
    (scalars.map (fun f => serializeToSQL f.type (rowGet row f.name)))
    isGeneratedId

/-- A task of the fueled resolution recursion: resolving one row
(`createStatement`'s body) or walking a row's remaining parent relation
list (`createStatement`'s `for (const parent of parents)` loop). -/
inductive SynthTask where
  | row (modelName : String) (r : Row)
  | parents (r : Row) (ps : List RelationField)

/-- The recursive resolution routine of `createStatement`
(store.ts:293-391), fueled.

On a `row` task: skip the row if an id-matching row is already inserted
(store.ts:309-315), otherwise mark it pending (store.ts:318), walk its
parent relations, emit its INSERT (store.ts:364-384), then filter it out of
pending — the filter keeps exactly the rows all of whose id fields differ,
as the source's `r[k] !== v` predicate does (store.ts:387-389) — and append
it to inserted (store.ts:390).

On a `parents` task (store.ts:322-362): skip a relation when all from-values
are null, look the parent row up in the store (absent row = external data,
skip), raise the circular-dependency error when a pending row matches,
otherwise resolve the parent row first. -/
def synthGo (dm : DataModel) (store : String → List Row) :
    Nat → SynthTask → SynthCtx → Except SynthError SynthCtx
  | 0, _, _ => .error .outOfFuel
  | fuel + 1, .row modelName row, ctx =>
    let model := dmLookup dm modelName
    let idFs := rowIdFields model row
    if (ctx.inserted modelName).any (idMatches idFs) then
      .ok ctx
    else
      let ctx1 : SynthCtx :=
        { ctx with pending := setRows ctx.pending modelName (ctx.pending modelName ++ [row]) }
      match synthGo dm store fuel (.parents row (groupFields model.fields).2) ctx1 with
      | .error e => .error e
      | .ok ctx2 =>
        let ctx3 : SynthCtx :=
          { ctx2 with statements := ctx2.statements ++ [renderRow dm modelName row] }
        .ok { ctx3 with
              pending := setRows ctx3.pending modelName
                ((ctx3.pending modelName).filter (fun r =>
                  idFs.all (fun kv => rowGet r kv.1 != kv.2))),
              inserted := setRows ctx3.inserted modelName (ctx3.inserted modelName ++ [row]) }
  | _ + 1, .parents _ [], ctx => .ok ctx
  | fuel + 1, .parents row (p :: rest), ctx =>
    let pidf := parentIdFields p row
    if pidf.all (fun kv => kv.2 == some JsVal.vNull) then
      synthGo dm store fuel (.parents row rest) ctx
    else
      match (store p.type).find? (idMatches pidf) with
      | none => synthGo dm store fuel (.parents row rest) ctx
      | some parentRow =>
        if (ctx.pending p.type).any (idMatches pidf) then
          .error (.circular p.type parentRow)
        else
          match synthGo dm store fuel (.row p.type parentRow) ctx with
          | .error e => .error e
          | .ok ctx2 => synthGo dm store fuel (.parents row rest) ctx2

/-- `createStatement` (store.ts:293-391): resolve one row and everything it
depends on. -/
def createStatement (dm : DataModel) (store : String → List Row) (fuel : Nat)
    (modelName : String) (row : Row) (ctx : SynthCtx) : Except SynthError SynthCtx :=
  synthGo dm store fuel (.row modelName row) ctx

/-- The parent loop of `createStatement` (store.ts:322-362). -/
def resolveParents (dm : DataModel) (store : String → List Row) (fuel : Nat)
    (row : Row) (parents : List RelationField) (ctx : SynthCtx) : Except SynthError SynthCtx :=
  synthGo dm store fuel (.parents row parents) ctx

/-- The sequence fixer statements built for one model (store.ts:245-277):
one `SELECT setval(..)` per field carrying a sequence descriptor whose
column survives the field map (non-generated or id) and whose schema, table
and sequence identifier are all truthy. -/
def sequenceFixers (model : Model) : List String :=
  let fieldMap := (groupFields model.fields).1.filter (fun s => !(s.isGenerated && !s.isId))
  model.fields.filterMap (fun f =>
    match f with
    | .relation _ => none
    | .scalar s =>
      match s.sequence with
      | none => none
      | some sq =>
        match fieldMap.find? (fun s2 => s2.name == s.name), sq.identifier with
        | some s2, some ident =>
          if s2.columnName != "" && model.schemaName != "" && model.tableName != ""
              && ident != "" then
            some ("SELECT setval(" ++ escapeLiteral ident ++ "::regclass, (SELECT MAX("
              ++ escapeIdentifier s2.columnName ++ ") FROM "
              ++ escapeIdentifier model.schemaName ++ "."
              ++ escapeIdentifier model.tableName ++ "))")
          else none
        | _, _ => none)

/-- `for (const row of rows) createStatement(...)` (store.ts:278-288). -/
def resolveRows (dm : DataModel) (store : String → List Row) (fuel : Nat)
    (modelName : String) : List Row → SynthCtx → Except SynthError SynthCtx
  | [], ctx => .ok ctx
  | r :: rs, ctx =>
    match createStatement dm store fuel modelName r ctx with
    | .error e => .error e
    | .ok ctx2 => resolveRows dm store fuel modelName rs ctx2

/-- The model loop of `createStatements` (store.ts:239-291).  Faithful to the
source, the `return` sits inside the loop body: the first model with rows
ends the loop, returning `some` of the final context and the sequence
fixers accumulated so far; falling through the loop returns `none`,
modelling the implicit `undefined` return. -/
def createStatementsGo (dm : DataModel) (store : String → List Row) (fuel : Nat) :
    List Model → List String → SynthCtx → Except SynthError (Option (SynthCtx × List String))
  | [], _, _ => .ok none
  | model :: rest, seqFix, ctx =>
    let rows := store model.modelName
    if rows.isEmpty then
      createStatementsGo dm store fuel rest seqFix ctx
    else
      let seqFix2 := seqFix ++ sequenceFixers model
      match resolveRows dm store fuel model.modelName rows ctx with
      | .error e => .error e
      | .ok ctx2 => .ok (some (ctx2, seqFix2))

/-- `createStatements` (store.ts:222-291), also returning the final context
so the bookkeeping sets can be inspected by the theorems below. -/
def createStatementsCtx (fuel : Nat) (dm : DataModel) (store : String → List Row) :
    Except SynthError (Option (SynthCtx × List String)) :=
  createStatementsGo dm store fuel (sortModels dm) [] freshSynthCtx

/-- `createStatements` as the source returns it: `[...statements,
...sequenceFixerStatements]` (store.ts:290), `none` for the implicit
`undefined` when every model had zero rows. -/
def createStatements (fuel : Nat) (dm : DataModel) (store : String → List Row) :
    Except SynthError (Option (List String)) :=
  (createStatementsCtx fuel dm store).map
    (Option.map (fun r => r.1.statements ++ r.2))

/-- `PgStore.toSQL` (store.ts:44-48): returns `createStatements` on the
method's first line; everything after that `return` is dead code. -/
def toSQL (fuel : Nat) (dm : DataModel) (store : String → List Row) :
    Except SynthError (Option (List String)) :=
  createStatements fuel dm store

/-- A parent relation `p` of `row`, when satisfiable in-batch: `none` when
all from-values are null or no matching row is in the parent model's store
(external reference), otherwise the matching parent row found by the lookup
of store.ts:336-338. -/
def foundParent (store : String → List Row) (row : Row) (p : RelationField) : Option Row :=
  let pidf := parentIdFields p row
  if pidf.all (fun kv => kv.2 == some JsVal.vNull) then none
  else (store p.type).find? (idMatches pidf)

/-- Two rows of model `modelName` denote the same entity: they agree on the
model's id fields — the predicate of the inserted check (store.ts:310-312),
keyed by the id fields of `r`. -/
def idMatchRow (dm : DataModel) (modelName : String) (r2 r : Row) : Bool :=
  idMatches (rowIdFields (dmLookup dm modelName) r) r2

/-- The `inserted` rows of a model after a successful synthesis run. -/
def synthInserted (fuel : Nat) (dm : DataModel) (store : String → List Row)
    (m : String) : List Row :=
  match createStatementsCtx fuel dm store with
  | .ok (some r) => r.1.inserted m
  | _ => []

/-- The statement list of a successful synthesis run (empty on error or on
the `undefined` fall-through). -/
def synthOut (fuel : Nat) (dm : DataModel) (store : String → List Row) : List String :=
  match createStatements fuel dm store with
  | .ok (some l) => l
  | _ => []

/-- The context grows monotonically: statements and per-model inserted rows
are only ever appended to. -/
def ctxExtends (ctx ctx2 : SynthCtx) : Prop :=
  (∃ s, ctx2.statements = ctx.statements ++ s) ∧
  (∀ m, ∃ l, ctx2.inserted m = ctx.inserted m ++ l)

/-- Ordering invariant of a resolution trace (the emitted `(model, row)`
pairs in emission order): every satisfiable parent of an emitted row has an
entity-matching row emitted strictly earlier. -/
def traceInv (dm : DataModel) (store : String → List Row)
    (trace : List (String × Row)) : Prop :=
  ∀ k e, trace.get? k = some e →
    ∀ p ∈ (groupFields (dmLookup dm e.1).fields).2,
      ∀ pa, foundParent store e.2 p = some pa →
        ∃ k2 e2, k2 < k ∧ trace.get? k2 = some e2 ∧
          e2.1 = p.type ∧ idMatchRow dm p.type e2.2 pa = true

/-- Full context invariant: the statements are exactly the renders of some
trace, the inserted sets are the per-model projections of that trace, and
the trace satisfies the ordering invariant. -/
def ctxInv (dm : DataModel) (store : String → List Row) (ctx : SynthCtx) : Prop :=
  ∃ trace : List (String × Row),
    ctx.statements = trace.map (fun q => renderRow dm q.1 q.2) ∧
    (∀ m, ctx.inserted m = (trace.filter (fun q => q.1 == m)).map (fun q => q.2)) ∧
    traceInv dm store trace

/-- Postcondition of a successfully completed resolution task: a resolved
row has an entity-matching row in its model's Inserted set; a walked parent
list has, for each satisfiable parent, an entity-matching row in the parent
model's Inserted set. -/
def taskPost (dm : DataModel) (store : String → List Row) (task : SynthTask)
    (ctx2 : SynthCtx) : Prop :=
  match task with
  | .row m r => ∃ r2, r2 ∈ ctx2.inserted m ∧ idMatchRow dm m r2 r = true
  | .parents r ps => ∀ p ∈ ps, ∀ pa, foundParent store r p = some pa →
      ∃ r2, r2 ∈ ctx2.inserted p.type ∧ idMatchRow dm p.type r2 pa = true

/-! ## Concrete schema/store snapshots used by the evaluation theorems -/

/-- C1 scenario (spec §8, cycle resolution via deferral): one model `c` with
a nullable self-relation `ref → id`. -/
def dmC1 : DataModel := ⟨[⟨"c", "s", "c",
  [.scalar ⟨"id", "id", "int4", true, false, false, none⟩,
   .scalar ⟨"n", "n", "text", false, false, false, none⟩,
   .scalar ⟨"ref", "ref", "int4", false, false, false, none⟩,
   .relation ⟨"selfRel", "c", ["ref"], ["id"], true⟩]⟩]⟩

/-- The row `{id:1, n:"J", ref:2}` of the C1 scenario. -/
def r1C1 : Row := [("id", JsVal.vInt 1), ("n", JsVal.vStr "J"), ("ref", JsVal.vInt 2)]

/-- The row `{id:2, n:"K", ref:1}` of the C1 scenario. -/
def r2C1 : Row := [("id", JsVal.vInt 2), ("n", JsVal.vStr "K"), ("ref", JsVal.vInt 1)]

/-- Row Store of the C1 scenario: the two rows reference each other. -/
def storeC1 : String → List Row := fun m => if m == "c" then [r1C1, r2C1] else []

/-- C3 scenario: one model `d` with a nullable self-relation and a single
row `{id:1, ref:1}` referencing itself. -/
def dmC3 : DataModel := ⟨[⟨"d", "s", "d",
  [.scalar ⟨"id", "id", "int4", true, false, false, none⟩,
   .scalar ⟨"ref", "ref", "int4", false, false, false, none⟩,
   .relation ⟨"selfRel", "d", ["ref"], ["id"], true⟩]⟩]⟩

/-- The self-referencing row of the C3 scenario. -/
def rC3 : Row := [("id", JsVal.vInt 1), ("ref", JsVal.vInt 1)]

/-- Row Store of the C3 scenario. -/
def storeC3 : String → List Row := fun m => if m == "d" then [rC3] else []

/-- C2 scenario: two unrelated models `u` and `o`, both with rows. -/
def dmC2 : DataModel := ⟨[
  ⟨"u", "s", "u", [.scalar ⟨"id", "id", "int4", true, false, false, none⟩,
                   .scalar ⟨"n", "n", "text", false, false, false, none⟩]⟩,
  ⟨"o", "s", "o", [.scalar ⟨"id", "id", "int4", true, false, false, none⟩,
                   .scalar ⟨"q", "q", "int4", false, false, false, none⟩]⟩]⟩

/-- Row Store of the C2 scenario: rows were added for both models. -/
def storeC2 : String → List Row := fun m =>
  if m == "u" then [[("id", JsVal.vInt 1), ("n", JsVal.vStr "A")],
                    [("id", JsVal.vInt 2), ("n", JsVal.vStr "B")]]
  else if m == "o" then [[("id", JsVal.vInt 1), ("q", JsVal.vInt 3)]] else []

/-- C4 scenario: model `t` whose field `n` has `hasDefaultValue`. -/
def dmC4 : DataModel := ⟨[⟨"t", "s", "t",
  [.scalar ⟨"i", "i", "int4", true, false, false, none⟩,
   .scalar ⟨"n", "n", "text", false, false, true, none⟩,
   .scalar ⟨"e", "e", "text", false, false, false, none⟩]⟩]⟩

/-- Row Store of the C4 scenario: the row omits the defaulted field `n`. -/
def storeC4 : String → List Row := fun m =>
  if m == "t" then [[("i", JsVal.vInt 1), ("e", JsVal.vStr "x")]] else []

/-- C7 scenario: two unrelated models `x` and `y`, each with a
sequence-backed id column and one row. -/
def dmC7 : DataModel := ⟨[
  ⟨"x", "s", "x", [.scalar ⟨"id", "id", "int4", true, false, true, some ⟨some "x_id_seq"⟩⟩]⟩,
  ⟨"y", "s", "y", [.scalar ⟨"id", "id", "int4", true, false, true, some ⟨some "y_id_seq"⟩⟩]⟩]⟩

/-- Row Store of the C7 scenario: both sequence-bearing models have a row. -/
def storeC7 : String → List Row := fun m =>
  if m == "x" then [[("id", JsVal.vInt 5)]]
  else if m == "y" then [[("id", JsVal.vInt 7)]] else []

/-- C10 scenario: model `a` has no id fields; model `b` references row `a2`
of `a` through the non-id column `v` while `a1` references `b`, so `a2` is
resolved through a parent chain while `a1` is still mid-resolution. -/
def dmC10 : DataModel := ⟨[
  ⟨"a", "s", "a", [.scalar ⟨"v", "v", "int4", false, false, false, none⟩,
                   .scalar ⟨"bref", "bref", "int4", false, false, false, none⟩,
                   .relation ⟨"rb", "b", ["bref"], ["id"], true⟩]⟩,
  ⟨"b", "s", "b", [.scalar ⟨"id", "id", "int4", true, false, false, none⟩,
                   .scalar ⟨"aref", "aref", "int4", false, false, false, none⟩,
                   .relation ⟨"ra", "a", ["aref"], ["v"], true⟩]⟩]⟩

/-- Row Store of the C10 scenario. -/
def storeC10 : String → List Row := fun m =>
  if m == "a" then [[("v", JsVal.vInt 1), ("bref", JsVal.vInt 1)],
                    [("v", JsVal.vInt 2), ("bref", JsVal.vNull)]]
  else if m == "b" then [[("id", JsVal.vInt 1), ("aref", JsVal.vInt 2)]] else []

/-- Witness scenario for the dependency-ordering theorem: child model `c`
references parent model `p`; the model graph is cyclic so the sequencer
places `c` (the first declared model) first and `p` is reached through the
recursive resolution of `c`'s row. -/
def dmW : DataModel := ⟨[
  ⟨"c", "s", "c", [.scalar ⟨"id", "id", "int4", true, false, false, none⟩,
                   .scalar ⟨"pref", "pref", "int4", false, false, false, none⟩,
                   .relation ⟨"rcp", "p", ["pref"], ["id"], false⟩]⟩,
  ⟨"p", "s", "p", [.scalar ⟨"id", "id", "int4", true, false, false, none⟩,
                   .scalar ⟨"cref", "cref", "int4", false, false, false, none⟩,
                   .relation ⟨"rpc", "c", ["cref"], ["id"], true⟩]⟩]⟩

/-- The child row `{id:10, pref:1}` of the witness scenario. -/
def bW : Row := [("id", JsVal.vInt 10), ("pref", JsVal.vInt 1)]

/-- The parent row `{id:1, cref:null}` of the witness scenario. -/
def aW : Row := [("id", JsVal.vInt 1), ("cref", JsVal.vNull)]

/-- The child model's relation field to the parent model. -/
def pW : RelationField := ⟨"rcp", "p", ["pref"], ["id"], false⟩

/-- Row Store of the witness scenario. -/
def storeW : String → List Row := fun m =>
  if m == "c" then [bW] else if m == "p" then [aW] else []

/-- Single-model schema used by small witnesses. -/
def dmX : DataModel := ⟨[⟨"m", "s", "m",
  [.scalar ⟨"id", "id", "int4", true, false, false, none⟩]⟩]⟩

/-- The single row of the `dmX` store. -/
def rX : Row := [("id", JsVal.vInt 1)]

/-- Row Store holding just `rX`. -/
def storeX : String → List Row := fun m => if m == "m" then [rX] else []

/-- Schema with a single model `q` that has no id fields. -/
def dmN : DataModel := ⟨[⟨"q", "s", "q",
  [.scalar ⟨"w", "w", "int4", false, false, false, none⟩]⟩]⟩

/-- A row of the no-id model `q`. -/
def rN : Row := [("w", JsVal.vInt 1)]

/-- A context in which some row of every model is already inserted. -/
def ctxN : SynthCtx := { freshSynthCtx with inserted := fun _ => [[("w", JsVal.vInt 9)]] }

/-- The context produced by resolving `rX` from the fresh context. -/
def ctxX2 : SynthCtx :=
  match createStatement dmX storeX 10 ("m") rX freshSynthCtx with
  | .ok c => c
  | .error _ => freshSynthCtx

/-! ## Theorems -/

/-- Claim C1: the spec requires two rows of the same model that reference
each other through a nullable self-relation to synthesize successfully —
two INSERTs with the relation column nulled followed by two patch UPDATEs.
The reachable code instead raises the circular-dependency error on this
very input (store.ts:345-354 checks the pending set without consulting the
relation's nullability), contradicting the repo's own test "should handle
auto circular references". -/
theorem c1_nullable_cycle_throws :
    createStatements 100 dmC1 storeC1 = .error (.circular ("c") r1C1) := rfl

/-- Claim C2: the spec requires every row of every model to receive an
INSERT.  Evaluating the code on two unrelated models, each with rows, shows
the batch contains only the first model's INSERTs: the `return` at
store.ts:290 sits inside the model loop, so the loop body runs for the
first non-empty model only and model `o`'s row is silently dropped. -/
theorem c2_second_model_rows_dropped :
    createStatements 100 dmC2 storeC2 = .ok (some
      ["INSERT INTO \"s\".\"u\" (\"id\", \"n\") VALUES (1, \x27A\x27)",
       "INSERT INTO \"s\".\"u\" (\"id\", \"n\") VALUES (2, \x27B\x27)"]) := rfl

/-- Claim C3: the spec restricts the circular-dependency error to relation
chains whose from-columns are non-nullable.  The code raises it for a
nullable self-reference as well (the pending check at store.ts:345-354
never reads nullability); the error value does name the model and the
offending row, as the claim states. -/
theorem c3_nullable_selfref_also_throws :
    createStatements 100 dmC3 storeC3 = .error (.circular ("d") rC3) := rfl

/-- Claim C4: the spec requires an absent field with `hasDefaultValue` to
render as the DEFAULT keyword.  The reachable path has no default handling
(store.ts:376-382 serializes `row[f.name]` unconditionally), so the absent
defaulted column `n` renders as the NULL literal instead. -/
theorem c4_absent_default_renders_null :
    createStatements 100 dmC4 storeC4 = .ok (some
      ["INSERT INTO \"s\".\"t\" (\"i\", \"n\", \"e\") VALUES (1, NULL, \x27x\x27)"]) := rfl

/-- Claim C7: the spec requires one sequence-fix statement for every
sequence-bound column whose model has rows.  With two such models, the
early `return` inside the model loop (store.ts:290) emits the fixer (and
the INSERT) of the first model only; model `y`'s fixer never appears. -/
theorem c7_second_model_sequence_fixer_dropped :
    createStatements 100 dmC7 storeC7 = .ok (some
      ["INSERT INTO \"s\".\"x\" (\"id\") VALUES (5)",
       "SELECT setval(\x27x_id_seq\x27::regclass, (SELECT MAX(\"id\") FROM \"s\".\"x\"))"]) := rfl

/-- Claim C8: synthesis is deterministic and shares no state across calls:
the result is a pure function of the snapshot, each invocation equals a run
of the model loop started from `freshSynthCtx`, and that fresh context has
empty Inserted/Pending sets and an empty statement accumulator for every
model. -/
theorem c8_deterministic_fresh_context (fuel : Nat) (dm : DataModel)
    (store : String → List Row) :
    toSQL fuel dm store = toSQL fuel dm store ∧
    toSQL fuel dm store = (createStatementsGo dm store fuel (sortModels dm) [] freshSynthCtx).map
      (Option.map (fun r => r.1.statements ++ r.2)) ∧
    (∀ m, freshSynthCtx.inserted m = [] ∧ freshSynthCtx.pending m = []) ∧
    freshSynthCtx.statements = [] :=
  ⟨rfl, rfl, fun _ => ⟨rfl, rfl⟩, rfl⟩

/-- Helper for C9: a model loop over models none of which has rows falls
through and returns `none` (the JS `undefined`). -/
theorem createStatementsGo_all_empty (dm : DataModel) (store : String → List Row)
    (fuel : Nat) (ms : List Model) (seqFix : List String) (ctx : SynthCtx)
    (h : ∀ m ∈ ms, store m.modelName = []) :
    createStatementsGo dm store fuel ms seqFix ctx = .ok none := by
  induction ms with
  | nil => rfl
  | cons m rest ih =>
    have hm : store m.modelName = [] := h m (List.mem_cons_self m rest)
    simp only [createStatementsGo, hm, List.isEmpty_nil, if_true]
    exact ih (fun m2 hm2 => h m2 (List.mem_cons_of_mem m hm2))

/-- Claim C9: when every model's row list is empty, `toSQL` returns no
statement list at all — `createStatements` falls through its model loop and
returns `undefined` (`none`), not an empty list. -/
theorem c9_empty_store_returns_undefined (fuel : Nat) (dm : DataModel)
    (store : String → List Row) (h : ∀ m, store m = []) :
    toSQL fuel dm store = .ok none := by
  have : createStatementsCtx fuel dm store = .ok none :=
    createStatementsGo_all_empty dm store fuel (sortModels dm) [] freshSynthCtx
      (fun m _ => h m.modelName)
  show (createStatementsCtx fuel dm store).map (Option.map (fun r => r.1.statements ++ r.2)) = .ok none
  rw [this]
  rfl

/-- Witness for C9 at a concrete schema with an everywhere-empty store. -/
theorem c9_empty_store_returns_undefined_witness :
    toSQL 5 dmX (fun _ => []) = .ok none :=
  c9_empty_store_returns_undefined 5 dmX (fun _ => []) (fun _ => rfl)

/-- Claim C10, counterexample: for the no-id model `a` the code emits two
INSERTs in one synthesis call — row `a2` is resolved through a parent chain
while `a1` is still mid-resolution, before any row of `a` has entered the
Inserted set — refuting "at most one INSERT is emitted per synthesis
call". -/
theorem c10_counterexample_two_inserts :
    ¬ ((synthOut 100 dmC10 storeC10).countP
        (fun s => s == renderRow dmC10 ("a") [("v", JsVal.vInt 1), ("bref", JsVal.vInt 1)]
               || s == renderRow dmC10 ("a") [("v", JsVal.vInt 2), ("bref", JsVal.vNull)]) ≤ 1) := by
  decide

/-- A row entity-matches itself: the id-field predicate compares each id
field of the row with itself. -/
theorem idMatches_self (model : Model) (row : Row) :
    idMatches (rowIdFields model row) row = true := by
  rw [idMatches, List.all_eq_true]
  intro kv hkv
  rw [rowIdFields] at hkv
  obtain ⟨f, _, hmatch⟩ := List.mem_filterMap.mp hkv
  match f with
  | .scalar s =>
    by_cases hs : s.isId
    · simp only [hs, if_true] at hmatch
      obtain rfl := Option.some.inj hmatch
      simp
    · simp [hs] at hmatch
  | .relation r => simp at hmatch

/-- `ctxExtends` is reflexive. -/
theorem ctxExtends_refl (ctx : SynthCtx) : ctxExtends ctx ctx :=
  ⟨⟨[], by simp⟩, fun _ => ⟨[], by simp⟩⟩

/-- `ctxExtends` is transitive. -/
theorem ctxExtends_trans {a b c : SynthCtx} (h1 : ctxExtends a b) (h2 : ctxExtends b c) :
    ctxExtends a c := by
  obtain ⟨⟨s1, hs1⟩, hi1⟩ := h1
  obtain ⟨⟨s2, hs2⟩, hi2⟩ := h2
  refine ⟨⟨s1 ++ s2, by rw [hs2, hs1, List.append_assoc]⟩, fun m => ?_⟩
  obtain ⟨l1, hl1⟩ := hi1 m
  obtain ⟨l2, hl2⟩ := hi2 m
  exact ⟨l1 ++ l2, by rw [hl2, hl1, List.append_assoc]⟩

/-- Membership in an inserted set is preserved by context extension. -/
theorem ctxExtends_mem {a b : SynthCtx} (h : ctxExtends a b) {m : String} {r : Row}
    (hr : r ∈ a.inserted m) : r ∈ b.inserted m := by
  obtain ⟨l, hl⟩ := h.2 m
  rw [hl]
  exact List.mem_append_left l hr

/-- A successful resolution task extends the context monotonically and
establishes its postcondition: the resolved row (or each satisfiable parent
of the walked list) has an entity-matching row in the Inserted set. -/
theorem synthGo_post (dm : DataModel) (store : String → List Row) :
    ∀ fuel task ctx ctx2, synthGo dm store fuel task ctx = .ok ctx2 →
      ctxExtends ctx ctx2 ∧ taskPost dm store task ctx2 := by
  intro fuel
  induction fuel with
  | zero => intro task ctx ctx2 h; simp [synthGo] at h
  | succ n ih =>
    intro task ctx ctx2 h
    match task with
    | .row modelName row =>
      rw [show synthGo dm store (n+1) (.row modelName row) ctx =
        (if (ctx.inserted modelName).any (idMatches (rowIdFields (dmLookup dm modelName) row)) then
           .ok ctx
         else
           match synthGo dm store n (.parents row (groupFields (dmLookup dm modelName).fields).2)
             { ctx with pending := setRows ctx.pending modelName (ctx.pending modelName ++ [row]) } with
           | .error e => .error e
           | .ok c2 =>
             .ok { inserted := setRows c2.inserted modelName (c2.inserted modelName ++ [row]),
                   pending := setRows c2.pending modelName
                     ((c2.pending modelName).filter (fun r =>
                       (rowIdFields (dmLookup dm modelName) row).all
                         (fun kv => rowGet r kv.1 != kv.2))),
                   statements := c2.statements ++ [renderRow dm modelName row] })
        from rfl] at h
      by_cases hins : (ctx.inserted modelName).any
          (idMatches (rowIdFields (dmLookup dm modelName) row)) = true
      · rw [if_pos hins] at h
        obtain rfl := Except.ok.inj h
        obtain ⟨r2, hr2, hm2⟩ := List.any_eq_true.mp hins
        exact ⟨ctxExtends_refl _, ⟨r2, hr2, hm2⟩⟩
      · rw [if_neg hins] at h
        cases hrec : synthGo dm store n
            (.parents row (groupFields (dmLookup dm modelName).fields).2)
            { ctx with pending := setRows ctx.pending modelName (ctx.pending modelName ++ [row]) } with
        | error e => rw [hrec] at h; exact absurd h (by simp)
        | ok c2 =>
          rw [hrec] at h
          obtain rfl := Except.ok.inj h
          obtain ⟨hext, _⟩ := ih _ _ _ hrec
          constructor
          · have hA : ctxExtends ctx c2 := ⟨hext.1, hext.2⟩
            have hB : ctxExtends c2
                { inserted := setRows c2.inserted modelName (c2.inserted modelName ++ [row]),
                  pending := setRows c2.pending modelName
                    ((c2.pending modelName).filter (fun r =>
                      (rowIdFields (dmLookup dm modelName) row).all
                        (fun kv => rowGet r kv.1 != kv.2))),
                  statements := c2.statements ++ [renderRow dm modelName row] } := by
              refine ⟨⟨[renderRow dm modelName row], rfl⟩, fun m => ?_⟩
              by_cases hm : (m == modelName) = true
              · refine ⟨[row], ?_⟩
                show setRows c2.inserted modelName (c2.inserted modelName ++ [row]) m = _
                rw [setRows]
                rw [if_pos hm]
                rw [show m = modelName from by simpa using hm]
              · refine ⟨[], ?_⟩
                show setRows c2.inserted modelName (c2.inserted modelName ++ [row]) m = _
                rw [setRows]
                rw [if_neg hm, List.append_nil]
            exact ctxExtends_trans hA hB
          · refine ⟨row, ?_, ?_⟩
            · show row ∈ setRows c2.inserted modelName (c2.inserted modelName ++ [row]) modelName
              rw [setRows]
              rw [if_pos (by simp)]
              exact List.mem_append_right _ (List.mem_singleton.mpr rfl)
            · exact idMatches_self (dmLookup dm modelName) row
    | .parents row ps =>
      match ps with
      | [] =>
        rw [show synthGo dm store (n+1) (.parents row []) ctx = .ok ctx from rfl] at h
        obtain rfl := Except.ok.inj h
        exact ⟨ctxExtends_refl _, fun p hp => absurd hp (List.not_mem_nil p)⟩
      | p :: rest =>
        rw [show synthGo dm store (n+1) (.parents row (p :: rest)) ctx =
          (if (parentIdFields p row).all (fun kv => kv.2 == some JsVal.vNull) then
             synthGo dm store n (.parents row rest) ctx
           else
             match (store p.type).find? (idMatches (parentIdFields p row)) with
             | none => synthGo dm store n (.parents row rest) ctx
             | some parentRow =>
               if (ctx.pending p.type).any (idMatches (parentIdFields p row)) then
                 .error (.circular p.type parentRow)
               else
                 match synthGo dm store n (.row p.type parentRow) ctx with
                 | .error e => .error e
                 | .ok c2 => synthGo dm store n (.parents row rest) c2) from rfl] at h
        by_cases hnull : (parentIdFields p row).all (fun kv => kv.2 == some JsVal.vNull) = true
        · rw [if_pos hnull] at h
          obtain ⟨hext, hpost⟩ := ih _ _ _ h
          refine ⟨hext, fun p2 hp2 pa hfp => ?_⟩
          rcases List.mem_cons.mp hp2 with rfl | hp2
          · rw [foundParent] at hfp
            rw [if_pos hnull] at hfp
            exact absurd hfp (by simp)
          · exact hpost p2 hp2 pa hfp
        · rw [if_neg hnull] at h
          cases hfind : (store p.type).find? (idMatches (parentIdFields p row)) with
          | none =>
            rw [hfind] at h
            obtain ⟨hext, hpost⟩ := ih _ _ _ h
            refine ⟨hext, fun p2 hp2 pa hfp => ?_⟩
            rcases List.mem_cons.mp hp2 with rfl | hp2
            · rw [foundParent] at hfp
              rw [if_neg hnull, hfind] at hfp
              exact absurd hfp (by simp)
            · exact hpost p2 hp2 pa hfp
          | some parentRow =>
            rw [hfind] at h
            replace h :
                (if (ctx.pending p.type).any (idMatches (parentIdFields p row)) = true then
                   Except.error (SynthError.circular p.type parentRow)
                 else
                   match synthGo dm store n (.row p.type parentRow) ctx with
                   | .error e => .error e
                   | .ok c2 => synthGo dm store n (.parents row rest) c2) = .ok ctx2 := h
            by_cases hpend : (ctx.pending p.type).any (idMatches (parentIdFields p row)) = true
            · rw [if_pos hpend] at h
              exact absurd h (by simp)
            · rw [if_neg hpend] at h
              cases hrow : synthGo dm store n (.row p.type parentRow) ctx with
              | error e => rw [hrow] at h; exact absurd h (by simp)
              | ok c2 =>
                rw [hrow] at h
                obtain ⟨hext1, hpost1⟩ := ih _ _ _ hrow
                obtain ⟨hext2, hpost2⟩ := ih _ _ _ h
                refine ⟨ctxExtends_trans hext1 hext2, fun p2 hp2 pa hfp => ?_⟩
                rcases List.mem_cons.mp hp2 with rfl | hp2
                · rw [foundParent] at hfp
                  rw [if_neg hnull, hfind] at hfp
                  obtain rfl := Option.some.inj hfp
                  obtain ⟨r2, hr2, hm2⟩ := hpost1
                  exact ⟨r2, ctxExtends_mem hext2 hr2, hm2⟩
                · exact hpost2 p2 hp2 pa hfp

/-- A successful resolution task preserves the context invariant: the
statements stay the renders of a trace whose per-model projections are the
Inserted sets and in which every satisfiable parent of an emitted row is
entity-matched by an earlier emission. -/
theorem synthGo_inv (dm : DataModel) (store : String → List Row) :
    ∀ fuel task ctx ctx2, ctxInv dm store ctx →
      synthGo dm store fuel task ctx = .ok ctx2 → ctxInv dm store ctx2 := by
  intro fuel
  induction fuel with
  | zero => intro task ctx ctx2 _ h; simp [synthGo] at h
  | succ n ih =>
    intro task ctx ctx2 hInv h
    match task with
    | .row modelName row =>
      rw [show synthGo dm store (n+1) (.row modelName row) ctx =
        (if (ctx.inserted modelName).any (idMatches (rowIdFields (dmLookup dm modelName) row)) then
           .ok ctx
         else
           match synthGo dm store n (.parents row (groupFields (dmLookup dm modelName).fields).2)
             { ctx with pending := setRows ctx.pending modelName (ctx.pending modelName ++ [row]) } with
           | .error e => .error e
           | .ok c2 =>
             .ok { inserted := setRows c2.inserted modelName (c2.inserted modelName ++ [row]),
                   pending := setRows c2.pending modelName
                     ((c2.pending modelName).filter (fun r =>
                       (rowIdFields (dmLookup dm modelName) row).all
                         (fun kv => rowGet r kv.1 != kv.2))),
                   statements := c2.statements ++ [renderRow dm modelName row] })
        from rfl] at h
      by_cases hins : (ctx.inserted modelName).any
          (idMatches (rowIdFields (dmLookup dm modelName) row)) = true
      · rw [if_pos hins] at h
        obtain rfl := Except.ok.inj h
        exact hInv
      · rw [if_neg hins] at h
        cases hrec : synthGo dm store n
            (.parents row (groupFields (dmLookup dm modelName).fields).2)
            { ctx with pending := setRows ctx.pending modelName (ctx.pending modelName ++ [row]) } with
        | error e => rw [hrec] at h; exact absurd h (by simp)
        | ok c2 =>
          rw [hrec] at h
          obtain rfl := Except.ok.inj h
          have hInv1 : ctxInv dm store
              { ctx with pending := setRows ctx.pending modelName (ctx.pending modelName ++ [row]) } := hInv
          obtain ⟨t2, hstmt, hinsMap, htrace⟩ := ih _ _ _ hInv1 hrec
          have hpar : ∀ p ∈ (groupFields (dmLookup dm modelName).fields).2,
              ∀ pa, foundParent store row p = some pa →
                ∃ r2, r2 ∈ c2.inserted p.type ∧ idMatchRow dm p.type r2 pa = true :=
            (synthGo_post dm store n _ _ _ hrec).2
          refine ⟨t2 ++ [(modelName, row)], ?_, ?_, ?_⟩
          · show c2.statements ++ [renderRow dm modelName row] = _
            rw [hstmt, List.map_append]
            rfl
          · intro m
            show setRows c2.inserted modelName (c2.inserted modelName ++ [row]) m = _
            rw [List.filter_append, List.map_append, setRows]
            by_cases hm : (m == modelName) = true
            · rw [if_pos hm]
              have hm2 : m = modelName := by simpa using hm
              subst hm2
              rw [hinsMap m]
              have : List.filter (fun q => q.1 == m) [(m, row)] = [(m, row)] := by
                simp [List.filter]
              rw [this]
              rfl
            · rw [if_neg hm]
              rw [hinsMap m]
              have hne : (modelName == m) = false := by
                rcases heq : modelName == m with _ | _
                · rfl
                · exact absurd (by simp [(by simpa using heq : modelName = m)]) hm
              have : List.filter (fun q => q.1 == m) [(modelName, row)] = [] := by
                simp [List.filter, hne]
              rw [this]
              simp
          · intro k e hget p hp pa hfp
            have hklt : k < t2.length + 1 := by
              have := (List.get?_eq_some.mp hget).1
              simpa using this
            rcases Nat.lt_succ_iff_lt_or_eq.mp hklt with hk | hk
            · rw [List.get?_append hk] at hget
              obtain ⟨k2, e2, hk2, hget2, he2, hm2⟩ := htrace k e hget p hp pa hfp
              have hk2lt : k2 < t2.length := (List.get?_eq_some.mp hget2).1
              exact ⟨k2, e2, hk2, by rw [List.get?_append hk2lt]; exact hget2, he2, hm2⟩
            · subst hk
              rw [List.get?_concat_length] at hget
              obtain rfl := Option.some.inj hget
              obtain ⟨r2, hr2, hm2⟩ := hpar p hp pa hfp
              rw [hinsMap p.type] at hr2
              obtain ⟨q, hq, rfl⟩ := List.mem_map.mp hr2
              obtain ⟨hqmem, hqty⟩ := List.mem_filter.mp hq
              obtain ⟨k2, hget2⟩ := List.mem_iff_get?.mp hqmem
              have hk2lt : k2 < t2.length := (List.get?_eq_some.mp hget2).1
              exact ⟨k2, q, hk2lt, by rw [List.get?_append hk2lt]; exact hget2,
                by simpa using hqty, hm2⟩
    | .parents row ps =>
      match ps with
      | [] =>
        rw [show synthGo dm store (n+1) (.parents row []) ctx = .ok ctx from rfl] at h
        obtain rfl := Except.ok.inj h
        exact hInv
      | p :: rest =>
        rw [show synthGo dm store (n+1) (.parents row (p :: rest)) ctx =
          (if (parentIdFields p row).all (fun kv => kv.2 == some JsVal.vNull) then
             synthGo dm store n (.parents row rest) ctx
           else
             match (store p.type).find? (idMatches (parentIdFields p row)) with
             | none => synthGo dm store n (.parents row rest) ctx
             | some parentRow =>
               if (ctx.pending p.type).any (idMatches (parentIdFields p row)) then
                 .error (.circular p.type parentRow)
               else
                 match synthGo dm store n (.row p.type parentRow) ctx with
                 | .error e => .error e
                 | .ok c2 => synthGo dm store n (.parents row rest) c2) from rfl] at h
        by_cases hnull : (parentIdFields p row).all (fun kv => kv.2 == some JsVal.vNull) = true
        · rw [if_pos hnull] at h
          exact ih _ _ _ hInv h
        · rw [if_neg hnull] at h
          cases hfind : (store p.type).find? (idMatches (parentIdFields p row)) with
          | none =>
            rw [hfind] at h
            exact ih _ _ _ hInv h
          | some parentRow =>
            rw [hfind] at h
            replace h :
                (if (ctx.pending p.type).any (idMatches (parentIdFields p row)) = true then
                   Except.error (SynthError.circular p.type parentRow)
                 else
                   match synthGo dm store n (.row p.type parentRow) ctx with
                   | .error e => .error e
                   | .ok c2 => synthGo dm store n (.parents row rest) c2) = .ok ctx2 := h
            by_cases hpend : (ctx.pending p.type).any (idMatches (parentIdFields p row)) = true
            · rw [if_pos hpend] at h
              exact absurd h (by simp)
            · rw [if_neg hpend] at h
              cases hrow : synthGo dm store n (.row p.type parentRow) ctx with
              | error e => rw [hrow] at h; exact absurd h (by simp)
              | ok c2 =>
                rw [hrow] at h
                exact ih _ _ _ (ih _ _ _ hInv hrow) h

/-- The row loop of `createStatements` preserves the context invariant. -/
theorem resolveRows_inv (dm : DataModel) (store : String → List Row) (fuel : Nat)
    (mName : String) : ∀ rows ctx ctx2, ctxInv dm store ctx →
      resolveRows dm store fuel mName rows ctx = .ok ctx2 → ctxInv dm store ctx2 := by
  intro rows
  induction rows with
  | nil =>
    intro ctx ctx2 hInv h
    obtain rfl := Except.ok.inj h
    exact hInv
  | cons r rs ih =>
    intro ctx ctx2 hInv h
    replace h : (match createStatement dm store fuel mName r ctx with
                 | Except.error e => (Except.error e : Except SynthError SynthCtx)
                 | Except.ok c2 => resolveRows dm store fuel mName rs c2) = Except.ok ctx2 := h
    cases hc : createStatement dm store fuel mName r ctx with
    | error e => rw [hc] at h; exact absurd h (by simp)
    | ok c2 =>
      rw [hc] at h
      exact ih _ _ (synthGo_inv dm store fuel _ _ _ hInv hc) h

/-- The model loop of `createStatements` preserves the context invariant of
the context it returns. -/
theorem createStatementsGo_inv (dm : DataModel) (store : String → List Row) (fuel : Nat) :
    ∀ ms seqFix ctx ctxF fx, ctxInv dm store ctx →
      createStatementsGo dm store fuel ms seqFix ctx = .ok (some (ctxF, fx)) →
      ctxInv dm store ctxF := by
  intro ms
  induction ms with
  | nil =>
    intro seqFix ctx ctxF fx _ h
    exact absurd (Except.ok.inj h) (by simp)
  | cons model rest ih =>
    intro seqFix ctx ctxF fx hInv h
    replace h : (if (store model.modelName).isEmpty then
                   createStatementsGo dm store fuel rest seqFix ctx
                 else
                   match resolveRows dm store fuel model.modelName (store model.modelName) ctx with
                   | Except.error e =>
                     (Except.error e : Except SynthError (Option (SynthCtx × List String)))
                   | Except.ok c2 => Except.ok (some (c2, seqFix ++ sequenceFixers model)))
        = Except.ok (some (ctxF, fx)) := h
    by_cases he : (store model.modelName).isEmpty = true
    · rw [if_pos he] at h
      exact ih _ _ _ _ hInv h
    · rw [if_neg he] at h
      cases hr : resolveRows dm store fuel model.modelName (store model.modelName) ctx with
      | error e => rw [hr] at h; exact absurd h (by simp)
      | ok c2 =>
        rw [hr] at h
        have hpair : (c2, seqFix ++ sequenceFixers model) = (ctxF, fx) :=
          Option.some.inj (Except.ok.inj h)
        have hc2 : c2 = ctxF := congrArg Prod.fst hpair
        subst hc2
        exact resolveRows_inv dm store fuel model.modelName _ _ _ hInv hr

/-- A successful synthesis run's final context satisfies the invariant:
the run starts from the fresh context, whose invariant holds with the
empty trace. -/
theorem createStatementsCtx_inv (fuel : Nat) (dm : DataModel) (store : String → List Row)
    (ctxF : SynthCtx) (fx : List String)
    (h : createStatementsCtx fuel dm store = .ok (some (ctxF, fx))) :
    ctxInv dm store ctxF := by
  have hfresh : ctxInv dm store freshSynthCtx :=
    ⟨[], rfl, fun _ => rfl, fun k e hk => absurd hk (by simp)⟩
  exact createStatementsGo_inv dm store fuel (sortModels dm) [] freshSynthCtx ctxF fx hfresh h

/-- When an entity-matching row is already inserted, resolving a row is a
no-op: the check of store.ts:309-315 returns immediately. -/
theorem synthGo_row_skip (dm : DataModel) (store : String → List Row) (fuel : Nat)
    (m : String) (r : Row) (ctx : SynthCtx)
    (hany : (ctx.inserted m).any (idMatches (rowIdFields (dmLookup dm m) r)) = true) :
    synthGo dm store (fuel + 1) (.row m r) ctx = .ok ctx := by
  rw [show synthGo dm store (fuel + 1) (.row m r) ctx =
    (if (ctx.inserted m).any (idMatches (rowIdFields (dmLookup dm m) r)) then
       .ok ctx
     else
       match synthGo dm store fuel (.parents r (groupFields (dmLookup dm m).fields).2)
         { ctx with pending := setRows ctx.pending m (ctx.pending m ++ [r]) } with
       | .error e => .error e
       | .ok c2 =>
         .ok { inserted := setRows c2.inserted m (c2.inserted m ++ [r]),
               pending := setRows c2.pending m
                 ((c2.pending m).filter (fun r2 =>
                   (rowIdFields (dmLookup dm m) r).all (fun kv => rowGet r2 kv.1 != kv.2))),
               statements := c2.statements ++ [renderRow dm m r] }) from rfl]
  rw [if_pos hany]

/-- Claim C6: idempotent visitation — once a row has been successfully
resolved, resolving it again (directly or through a second reference path)
is a no-op: the resolution returns immediately because an entity-matching
row is in the Inserted set, so no second INSERT is emitted for it. -/
theorem c6_idempotent_visitation (dm : DataModel) (store : String → List Row)
    (fuel fuel2 : Nat) (m : String) (r : Row) (ctx ctx2 : SynthCtx)
    (h : createStatement dm store fuel m r ctx = .ok ctx2) :
    createStatement dm store (fuel2 + 1) m r ctx2 = .ok ctx2 := by
  obtain ⟨_, hpost⟩ := synthGo_post dm store fuel (.row m r) ctx ctx2 h
  have hpost2 : ∃ r2, r2 ∈ ctx2.inserted m ∧ idMatchRow dm m r2 r = true := hpost
  obtain ⟨r2, hr2, hm2⟩ := hpost2
  show synthGo dm store (fuel2 + 1) (.row m r) ctx2 = .ok ctx2
  exact synthGo_row_skip dm store fuel2 m r ctx2 (List.any_eq_true.mpr ⟨r2, hr2, hm2⟩)

/-- Witness for C6: resolving the single row of `dmX` from the fresh
context yields `ctxX2`, and resolving it a second time returns `ctxX2`
unchanged — no second INSERT is emitted. -/
theorem c6_idempotent_visitation_witness :
    createStatement dmX storeX 10 ("m") rX ctxX2 = .ok ctxX2 :=
  c6_idempotent_visitation dmX storeX 10 9 ("m") rX freshSynthCtx ctxX2 rfl

/-- Claim C5: dependency ordering — whenever a synthesis run has resolved a
row `b` (it is in the final Inserted set of its model) and `b` is connected
to a parent row `a` through a satisfiable relation (no relation is ever
deferred on the reachable path), an entity-match of `a` has its INSERT at a
strictly earlier position of the output statement list than `b`'s own
INSERT. -/
theorem c5_parent_insert_precedes_child (fuel : Nat) (dm : DataModel)
    (store : String → List Row) (mName : String) (b : Row) (p : RelationField) (a : Row)
    (hb : b ∈ synthInserted fuel dm store mName)
    (hp : p ∈ (groupFields (dmLookup dm mName).fields).2)
    (hfp : foundParent store b p = some a) :
    ∃ r2 i j, idMatchRow dm p.type r2 a = true ∧ i < j ∧
      (synthOut fuel dm store).get? i = some (renderRow dm p.type r2) ∧
      (synthOut fuel dm store).get? j = some (renderRow dm mName b) := by
  rw [synthInserted] at hb
  cases hres : createStatementsCtx fuel dm store with
  | error e =>
    rw [hres] at hb
    exact absurd hb (List.not_mem_nil b)
  | ok o =>
    match o with
    | none =>
      rw [hres] at hb
      exact absurd hb (List.not_mem_nil b)
    | some (ctxF, fx) =>
      rw [hres] at hb
      replace hb : b ∈ ctxF.inserted mName := hb
      obtain ⟨trace, hstmt, hinsMap, htrace⟩ := createStatementsCtx_inv fuel dm store ctxF fx hres
      rw [hinsMap mName] at hb
      obtain ⟨q, hq, hq2⟩ := List.mem_map.mp hb
      obtain ⟨hqmem, hqty⟩ := List.mem_filter.mp hq
      have hq1 : q.1 = mName := by simpa using hqty
      obtain ⟨j, hgetj⟩ := List.mem_iff_get?.mp hqmem
      have hfp2 : foundParent store q.2 p = some a := by rw [hq2]; exact hfp
      have hp2 : p ∈ (groupFields (dmLookup dm q.1).fields).2 := by rw [hq1]; exact hp
      obtain ⟨k2, e2, hk2, hget2, he2, hm2⟩ := htrace j q hgetj p hp2 a hfp2
      have hout : synthOut fuel dm store = ctxF.statements ++ fx := by
        rw [synthOut, createStatements, hres]
        rfl
      have hjlt : j < trace.length := (List.get?_eq_some.mp hgetj).1
      have hk2lt : k2 < trace.length := (List.get?_eq_some.mp hget2).1
      have hlen : ctxF.statements.length = trace.length := by
        rw [hstmt, List.length_map]
      refine ⟨e2.2, k2, j, hm2, hk2, ?_, ?_⟩
      · rw [hout, List.get?_append (show k2 < ctxF.statements.length by rw [hlen]; exact hk2lt)]
        rw [hstmt, List.get?_map, hget2]
        show some (renderRow dm e2.1 e2.2) = some (renderRow dm p.type e2.2)
        rw [he2]
      · rw [hout, List.get?_append (show j < ctxF.statements.length by rw [hlen]; exact hjlt)]
        rw [hstmt, List.get?_map, hgetj]
        show some (renderRow dm q.1 q.2) = some (renderRow dm mName b)
        rw [hq1, hq2]

/-- Witness for C5 at the concrete cyclic-model-graph snapshot: the parent
row `aW`'s INSERT appears strictly before the child row `bW`'s INSERT. -/
theorem c5_parent_insert_precedes_child_witness :
    ∃ r2 i j, idMatchRow dmW ("p") r2 aW = true ∧ i < j ∧
      (synthOut 100 dmW storeW).get? i = some (renderRow dmW ("p") r2) ∧
      (synthOut 100 dmW storeW).get? j = some (renderRow dmW ("c") bW) :=
  c5_parent_insert_precedes_child 100 dmW storeW ("c") bW pW aW
    (by decide) (by decide) (by decide)

/-- Claim C10, amended: once any row of a model with no id fields is in the
Inserted set, every subsequently resolved row of that model is treated as
already inserted and skipped (its identity tuple is empty, so it matches
any inserted row); at most one INSERT therefore arises from rows whose
resolution starts after some row of the model completed — but a second
INSERT can still be emitted when another row of the model is reached
through a parent chain while the first is mid-resolution. -/
theorem c10_no_id_model_skips_after_insert (dm : DataModel) (store : String → List Row)
    (fuel : Nat) (m : String) (r : Row) (ctx : SynthCtx)
    (hids : rowIdFields (dmLookup dm m) r = [])
    (hne : ctx.inserted m ≠ []) :
    createStatement dm store (fuel + 1) m r ctx = .ok ctx := by
  obtain ⟨r2, hr2⟩ := List.exists_mem_of_ne_nil _ hne
  show synthGo dm store (fuel + 1) (.row m r) ctx = .ok ctx
  refine synthGo_row_skip dm store fuel m r ctx (List.any_eq_true.mpr ⟨r2, hr2, ?_⟩)
  rw [idMatches, hids]
  rfl

/-- Witness for the amended C10: with a row of the no-id model `q` already
inserted, resolving a different row of `q` is skipped. -/
theorem c10_no_id_model_skips_after_insert_witness :
    createStatement dmN (fun _ => []) 5 ("q") rN ctxN = .ok ctxN :=
  c10_no_id_model_skips_after_insert dmN (fun _ => []) 4 ("q") rN ctxN rfl (by decide)

end Seed
